import Mathlib

/-!
Shallow embedding of the BookmarkSummarizer crawler (`crawl.py`) and proofs
about its fetch pipeline, encoding normalizer, content extractor, parallel
coordinator and summary-merge pass.

Text is modelled as `List Char` (Python `str`); bookmark records are
insertion-ordered association lists (Python `dict`); external effects
(HTTP requests, the headless browser, `chardet` detection, byte decoding,
wall-clock time, the LLM summarizer) are oracle parameters, with raising
calls modelled as `Except`/`Option` results.
-/

set_option maxRecDepth 8000

namespace Crawl

/-- Text, modelled as a list of characters (Python `str`). -/
abbrev Str := List Char

/-- A value stored in a bookmark record: the records built by `crawl.py`
hold strings and one integer field (`content_length`). -/
inductive Val where
  | str (s : Str)
  | nat (n : Nat)
deriving DecidableEq

/-- A Python `dict` with string keys, as an insertion-ordered association list. -/
abbrev Dict := List (String × Val)

/-- Dictionary lookup: `d[k]` when the key is present, `d.get(k)` otherwise. -/
def lookup : Dict → String → Option Val
  | [], _ => none
  | (k', v) :: rest, k => if k' = k then some v else lookup rest k

/-- Dictionary assignment `d[k] = v`: replaces the value of an existing key in
place and otherwise appends the binding at the end (Python dicts preserve
insertion order). -/
def dset : Dict → String → Val → Dict
  | [], k, v => [(k, v)]
  | (k', v') :: rest, k, v =>
      if k' = k then (k, v) :: rest else (k', v') :: dset rest k v

theorem lookup_dset (d : Dict) (k : String) (v : Val) (k' : String) :
    lookup (dset d k v) k' = if k' = k then some v else lookup d k' := by
  induction d with
  | nil =>
      rcases eq_or_ne k' k with h | h
      · simp [dset, lookup, h]
      · simp [dset, lookup, h, Ne.symm h]
  | cons p rest ih =>
      obtain ⟨k₀, v₀⟩ := p
      rcases eq_or_ne k₀ k with h0 | h0
      · subst h0
        rcases eq_or_ne k' k₀ with h | h
        · simp [dset, lookup, h]
        · simp [dset, lookup, h, Ne.symm h]
      · rcases eq_or_ne k' k₀ with h | h
        · subst h
          simp [dset, lookup, h0, Ne.symm h0]
        · simp [dset, lookup, h0, h, Ne.symm h, ih]

theorem lookup_dset_self (d : Dict) (k : String) (v : Val) :
    lookup (dset d k v) k = some v := by simp [lookup_dset]

theorem lookup_dset_ne (d : Dict) (k : String) (v : Val) (k' : String)
    (h : k' ≠ k) : lookup (dset d k v) k' = lookup d k' := by
  simp [lookup_dset, h]

/-! ### Whitespace trimming (Python `str.strip()`) -/

/-- Whitespace test used by `str.strip()`; modelled by `Char.isWhitespace`
(space, tab, carriage return, newline — the characters occurring in the
crawler's extracted text). -/
def is_space (c : Char) : Bool := c.isWhitespace

/-- Drop leading whitespace. -/
def trim_left (s : Str) : Str := s.dropWhile is_space

/-- Drop trailing whitespace. -/
def trim_right (s : Str) : Str := (s.reverse.dropWhile is_space).reverse

/-- Python `line.strip()`: remove leading and trailing whitespace. -/
def strip (s : Str) : Str := trim_right (trim_left s)

theorem dropWhile_mem {p : Char → Bool} {l : Str} {c : Char}
    (h : c ∈ l.dropWhile p) : c ∈ l := by
  induction l with
  | nil => simp at h
  | cons a rest ih =>
      cases hp : p a with
      | true =>
          rw [List.dropWhile_cons, if_pos (by rw [hp])] at h
          exact List.mem_cons_of_mem a (ih h)
      | false =>
          rw [List.dropWhile_cons, if_neg (by rw [hp]; simp)] at h
          exact h

theorem strip_mem {l : Str} {c : Char} (h : c ∈ strip l) : c ∈ l := by
  unfold strip trim_right trim_left at h
  rw [List.mem_reverse] at h
  have h1 := dropWhile_mem h
  rw [List.mem_reverse] at h1
  exact dropWhile_mem h1

theorem dropWhile_idem (p : Char → Bool) (l : Str) :
    (l.dropWhile p).dropWhile p = l.dropWhile p := by
  induction l with
  | nil => rfl
  | cons a rest ih =>
      cases hp : p a with
      | true =>
          rw [List.dropWhile_cons, if_pos (by rw [hp])]
          exact ih
      | false =>
          rw [List.dropWhile_cons, if_neg (by rw [hp]; simp),
            List.dropWhile_cons, if_neg (by rw [hp]; simp)]

theorem trim_right_idem (s : Str) : trim_right (trim_right s) = trim_right s := by
  unfold trim_right
  rw [List.reverse_reverse, dropWhile_idem]

theorem head?_dropWhile_false {p : Char → Bool} {l : Str} {c : Char}
    (h : (l.dropWhile p).head? = some c) : p c = false := by
  induction l with
  | nil => simp at h
  | cons a rest ih =>
      cases hp : p a with
      | true =>
          rw [List.dropWhile_cons, if_pos (by rw [hp])] at h
          exact ih h
      | false =>
          rw [List.dropWhile_cons, if_neg (by rw [hp]; simp)] at h
          rw [List.head?_cons, Option.some.injEq] at h
          rw [← h]
          exact hp

theorem trim_right_append (s : Str) : ∃ t, s = trim_right s ++ t := by
  refine ⟨(s.reverse.takeWhile is_space).reverse, ?_⟩
  unfold trim_right
  rw [← List.reverse_append, List.takeWhile_append_dropWhile, List.reverse_reverse]

theorem trim_left_of_head {l : Str}
    (h : ∀ c, l.head? = some c → is_space c = false) : trim_left l = l := by
  cases l with
  | nil => rfl
  | cons a rest =>
      have ha := h a (by simp)
      rw [trim_left, List.dropWhile_cons, if_neg (by rw [ha]; simp)]

theorem trim_left_strip (s : Str) : trim_left (strip s) = strip s := by
  cases hs : strip s with
  | nil => rfl
  | cons c rest =>
      apply trim_left_of_head
      intro x hx
      rw [List.head?_cons, Option.some.injEq] at hx
      subst hx
      obtain ⟨t, ht⟩ := trim_right_append (trim_left s)
      have hse : trim_left s = (c :: rest) ++ t := by
        calc trim_left s = trim_right (trim_left s) ++ t := ht
          _ = strip s ++ t := rfl
          _ = (c :: rest) ++ t := by rw [hs]
      have hh : (List.dropWhile is_space s).head? = some c := by
        show (trim_left s).head? = some c
        rw [hse]
        rfl
      exact head?_dropWhile_false hh

theorem strip_idem (s : Str) : strip (strip s) = strip s := by
  conv_lhs => rw [strip, trim_left_strip]
  show trim_right (trim_right (trim_left s)) = strip s
  rw [trim_right_idem]
  rfl

/-! ### Splitting and joining lines -/

/-- One step of `split_on_char`: feed character `c` into the split of the tail. -/
def split_consume (sep : Char) (c : Char) : List Str → List Str
  | [] => [[]]
  | l :: ls => if c = sep then [] :: l :: ls else (c :: l) :: ls

/-- Python `text.split(sep)` for a single-character separator:
the empty text gives `[[]]`, and each separator occurrence starts a new chunk. -/
def split_on_char (sep : Char) : Str → List Str
  | [] => [[]]
  | c :: rest => split_consume sep c (split_on_char sep rest)

/-- Python `sep.join(lines)` for a single-character separator. -/
def join_lines (sep : Char) : List Str → Str
  | [] => []
  | [l] => l
  | l :: l' :: ls => l ++ sep :: join_lines sep (l' :: ls)

theorem split_on_char_ne_nil (sep : Char) (s : Str) : split_on_char sep s ≠ [] := by
  cases s with
  | nil => simp [split_on_char]
  | cons c rest =>
      rw [split_on_char]
      cases split_on_char sep rest with
      | nil => simp [split_consume]
      | cons l ls => by_cases h : c = sep <;> simp [split_consume, h]

theorem join_split (sep : Char) (s : Str) :
    join_lines sep (split_on_char sep s) = s := by
  induction s with
  | nil => rfl
  | cons c rest ih =>
      rw [split_on_char]
      cases hr : split_on_char sep rest with
      | nil => exact absurd hr (split_on_char_ne_nil sep rest)
      | cons l ls =>
          rw [hr] at ih
          by_cases h : c = sep
          · subst h
            rw [split_consume, if_pos rfl]
            cases ls with
            | nil => simpa [join_lines] using ih
            | cons x xs => simpa [join_lines] using ih
          · rw [split_consume, if_neg h]
            cases ls with
            | nil => simpa [join_lines] using ih
            | cons x xs =>
                rw [join_lines] at ih ⊢
                rw [List.cons_append, ih]

theorem mem_split_not_sep {sep : Char} {s l : Str}
    (h : l ∈ split_on_char sep s) : sep ∉ l := by
  induction s generalizing l with
  | nil =>
      rw [split_on_char, List.mem_singleton] at h
      subst h; simp
  | cons c rest ih =>
      rw [split_on_char] at h
      cases hr : split_on_char sep rest with
      | nil => exact absurd hr (split_on_char_ne_nil sep rest)
      | cons m ms =>
          rw [hr] at h
          by_cases hc : c = sep
          · rw [split_consume, if_pos hc] at h
            rcases List.mem_cons.mp h with h1 | h1
            · subst h1; simp
            · exact ih (by rw [hr]; exact h1)
          · rw [split_consume, if_neg hc] at h
            rcases List.mem_cons.mp h with h1 | h1
            · subst h1
              intro hmem
              rcases List.mem_cons.mp hmem with h2 | h2
              · exact hc h2.symm
              · exact ih (by rw [hr]; exact List.mem_cons_self m ms) h2
            · exact ih (by rw [hr]; exact List.mem_cons_of_mem m h1)

theorem split_no_sep {sep : Char} {l : Str} (h : sep ∉ l) :
    split_on_char sep l = [l] := by
  induction l with
  | nil => rfl
  | cons c rest ih =>
      have hc : c ≠ sep := fun he => h (he ▸ List.mem_cons_self c rest)
      have hrest : sep ∉ rest := fun hm => h (List.mem_cons_of_mem c hm)
      rw [split_on_char, ih hrest, split_consume, if_neg hc]

theorem split_prepend {sep : Char} {l : Str} (xs : Str) (h : sep ∉ l)
    {m : Str} {ms : List Str} (hx : split_on_char sep xs = m :: ms) :
    split_on_char sep (l ++ xs) = (l ++ m) :: ms := by
  induction l with
  | nil => simpa using hx
  | cons c rest ih =>
      have hc : c ≠ sep := fun he => h (he ▸ List.mem_cons_self c rest)
      have hrest : sep ∉ rest := fun hm => h (List.mem_cons_of_mem c hm)
      rw [List.cons_append, split_on_char, ih hrest, split_consume, if_neg hc,
        List.cons_append]

theorem split_cons_sep (sep : Char) (t : Str) :
    split_on_char sep (sep :: t) = [] :: split_on_char sep t := by
  rw [split_on_char]
  cases ht : split_on_char sep t with
  | nil => exact absurd ht (split_on_char_ne_nil sep t)
  | cons l ls => rw [split_consume, if_pos rfl]

theorem split_join {sep : Char} :
    ∀ (ls : List Str), (∀ l ∈ ls, sep ∉ l) → ls ≠ [] →
      split_on_char sep (join_lines sep ls) = ls
  | [], _, hne => absurd rfl hne
  | [l], h, _ => by
      simpa [join_lines] using split_no_sep (h l (by simp))
  | l :: l' :: ls, h, _ => by
      have hl : sep ∉ l := h l (by simp)
      have hrest : ∀ m ∈ l' :: ls, sep ∉ m := fun m hm =>
        h m (List.mem_cons_of_mem l hm)
      have ihs := split_join (l' :: ls) hrest (by simp)
      rw [join_lines]
      have hcons := split_cons_sep sep (join_lines sep (l' :: ls))
      rw [ihs] at hcons
      rw [split_prepend (sep :: join_lines sep (l' :: ls)) hl hcons]
      simp

/-! ### Content Extractor collapsing step: `clean_text` (crawl.py lines 625-631) -/

/-- Python `clean_text`: split on newlines, strip every line, drop empty lines,
rejoin with single newlines. -/
def clean_text (text : Str) : Str :=
  join_lines '\n' (((split_on_char '\n' text).map strip).filter
    (fun l => decide (l ≠ [])))

/-- Lines of a text: Python `str.splitlines()` on texts that do not end in a
newline; the empty text has no lines. -/
def text_lines (s : Str) : List Str := if s = [] then [] else split_on_char '\n' s

/-! ### Encoding Normalizer: `fix_encoding` (crawl.py lines 729-774) -/

/-- Test for a non-ASCII character: Python `ord(c) > 127`. -/
def non_ascii (c : Char) : Bool := decide (127 < c.toNat)

/-- Sample size used by `fix_encoding`: `min(1000, len(text))`. -/
def sample_size (text : Str) : Nat := min 1000 text.length

/-- The sample inspected by `fix_encoding`: `text[:sample_size]`. -/
def sample_of (text : Str) : Str := text.take (sample_size text)

/-- Number of non-ASCII characters in the sample
(`sum(1 for c in sample_text if ord(c) > 127)`). -/
def non_ascii_count (text : Str) : Nat :=
  ((sample_of text).filter non_ascii).length

/-- The `special_char_sequence` loop of `fix_encoding`: scans for consecutive
non-ASCII characters, breaking out as soon as a run reaches 10; the result is
the value of the counter when the loop stops. -/
def run_scan : Str → Nat → Nat
  | [], acc => acc
  | c :: rest, acc =>
      if non_ascii c then
        if 10 ≤ acc + 1 then acc + 1 else run_scan rest (acc + 1)
      else run_scan rest 0

/-- Python `s.encode('latin-1', errors='ignore')`: characters with code point
below 256 become bytes, all others are dropped. -/
def encode_latin1_ignore (s : Str) : List Nat :=
  (s.filter (fun c => decide (c.toNat < 256))).map Char.toNat

/-- Name of the ASCII encoding, as compared against `chardet`'s answer. -/
def ascii_name : Str := "ascii".toList

/-- Name of the UTF-8 encoding, as compared against `chardet`'s answer. -/
def utf8_name : Str := "utf-8".toList

/-- Result of `chardet.detect`: whether `confidence > 0.8`, and the detected
encoding name (`None` is possible). The call can raise, hence the `Option`
in the oracle type below. -/
abbrev Detected := Bool × Option Str

/-- Python `fix_encoding` (crawl.py lines 729-774). `det` models
`chardet.detect` on the latin-1 re-encoded sample (`none` = the call raised);
`dec` models `bytes.decode(encoding, errors='replace')` of the re-encoded full
text under the detected encoding (`none` = the decode raised, e.g. a `None` or
unknown codec name). The float test `non_ascii_count < sample_size * 0.1` is
rendered as the integer comparison `10 * count < size`, which is exactly
equivalent for sizes up to 1000 in IEEE double arithmetic. The guard
`if not text or len(text) < 20` is `length < 20` (the empty text has length
0 < 20). -/
def fix_encoding (det : List Nat → Option Detected)
    (dec : Option Str → List Nat → Option Str) (text : Str) : Str :=
  if text.length < 20 then text
  else if 10 * non_ascii_count text < sample_size text then text
  else if run_scan (sample_of text) 0 < 10 then text
  else
    match det (encode_latin1_ignore (sample_of text)) with
    | none => text
    | some (confident, enc) =>
        if confident ∧ enc ≠ some ascii_name ∧ enc ≠ some utf8_name then
          match dec enc (encode_latin1_ignore text) with
          | none => text
          | some out => out
        else text

/-- A run of at least 10 consecutive non-ASCII characters occurs in `s`. -/
def has_non_ascii_run (s : Str) : Prop :=
  ∃ p mid q, s = p ++ mid ++ q ∧ mid.length = 10 ∧ ∀ c ∈ mid, non_ascii c = true

theorem run_scan_reach :
    ∀ (s : Str) (acc : Nat), acc < 10 → 10 ≤ run_scan s acc →
      (∃ l q, s = l ++ q ∧ l.length = 10 - acc ∧ ∀ c ∈ l, non_ascii c = true) ∨
        has_non_ascii_run s := by
  intro s
  induction s with
  | nil =>
      intro acc hlt hge
      rw [run_scan] at hge
      omega
  | cons c rest ih =>
      intro acc hlt hge
      rw [run_scan] at hge
      cases hc : non_ascii c with
      | false =>
          rw [if_neg (by rw [hc]; simp)] at hge
          rcases ih 0 (by omega) hge with ⟨l, q, hsq, hlen, hall⟩ | hrun
          · right
            exact ⟨[c], l.take 10, l.drop 10 ++ q, by
                rw [hsq]
                simp only [List.singleton_append, List.cons_append, List.nil_append]
                rw [← List.append_assoc, List.take_append_drop], by simp [hlen],
              fun x hx => hall x (List.mem_of_mem_take hx)⟩
          · right
            obtain ⟨p, mid, q, hsq, hlen, hall⟩ := hrun
            exact ⟨c :: p, mid, q, by simp [hsq], hlen, hall⟩
      | true =>
          rw [if_pos (by rw [hc])] at hge
          by_cases h10 : 10 ≤ acc + 1
          · left
            have hacc : acc = 9 := by omega
            subst hacc
            exact ⟨[c], rest, rfl, by norm_num, by
              intro x hx
              rw [List.mem_singleton] at hx
              subst hx
              exact hc⟩
          · rw [if_neg h10] at hge
            rcases ih (acc + 1) (by omega) hge with ⟨l, q, hsq, hlen, hall⟩ | hrun
            · left
              refine ⟨c :: l, q, by rw [hsq]; rfl, by simp [hlen]; omega, ?_⟩
              intro x hx
              rcases List.mem_cons.mp hx with h1 | h1
              · subst h1; exact hc
              · exact hall x h1
            · right
              obtain ⟨p, mid, q, hsq, hlen, hall⟩ := hrun
              exact ⟨c :: p, mid, q, by simp [hsq], hlen, hall⟩

theorem run_scan_of_run (s : Str) (h : 10 ≤ run_scan s 0) : has_non_ascii_run s := by
  rcases run_scan_reach s 0 (by omega) h with ⟨l, q, hsq, hlen, hall⟩ | hrun
  · exact ⟨[], l, q, by simpa using hsq, by simpa using hlen, hall⟩
  · exact hrun

/-- C6: the Encoding Normalizer (`fix_encoding`) is the identity on every
input that triggers a short-circuit: any text shorter than 20 characters, any
text whose non-ASCII character ratio in the first `min(1000, length)`
characters is strictly below 10%, and any text whose sample contains no run of
at least 10 consecutive non-ASCII characters, is returned unchanged. -/
theorem claim_c6_fix_encoding_short_circuits
    (det : List Nat → Option Detected) (dec : Option Str → List Nat → Option Str)
    (text : Str)
    (h : text.length < 20 ∨ 10 * non_ascii_count text < sample_size text ∨
      ¬ has_non_ascii_run (sample_of text)) :
    fix_encoding det dec text = text := by
  unfold fix_encoding
  split
  · rfl
  next h1 =>
    split
    · rfl
    next h2 =>
      split
      · rfl
      next h3 =>
        exfalso
        rcases h with h | h | h
        · exact h1 h
        · exact h2 h
        · exact h (run_scan_of_run _ (by omega))

theorem claim_c6_fix_encoding_short_circuits_witness :
    ("short".toList).length < 20 ∧
      fix_encoding (fun _ => none) (fun _ _ => none) "short".toList
        = "short".toList :=
  ⟨by decide, claim_c6_fix_encoding_short_circuits _ _ _ (Or.inl (by decide))⟩

/-- C7: the Encoding Normalizer (`fix_encoding`) never raises (it is a total
function into `Str`), and whenever the statistical detection call or the byte
re-encoding/decoding call fails internally (the oracle returns `none`,
modelling a raised exception caught by the `try`/`except` block), the
original input is returned unchanged. -/
theorem claim_c7_fix_encoding_failure_identity
    (det : List Nat → Option Detected) (dec : Option Str → List Nat → Option Str)
    (text : Str)
    (h : det (encode_latin1_ignore (sample_of text)) = none ∨
      ∀ b enc, det (encode_latin1_ignore (sample_of text)) = some (b, enc) →
        dec enc (encode_latin1_ignore text) = none) :
    fix_encoding det dec text = text := by
  unfold fix_encoding
  split
  · rfl
  split
  · rfl
  split
  · rfl
  split
  · rfl
  next confident enc heq =>
    rcases h with h | h
    · rw [h] at heq
      exact absurd heq (by simp)
    · have hdec := h confident enc heq
      split
      · rw [hdec]
      · rfl

theorem claim_c7_fix_encoding_failure_identity_witness :
    (fun (_ : List Nat) => (none : Option Detected))
        (encode_latin1_ignore (sample_of "encoding failure test input".toList))
        = none ∧
      fix_encoding (fun _ => none) (fun _ _ => none)
          "encoding failure test input".toList
        = "encoding failure test input".toList :=
  ⟨rfl, claim_c7_fix_encoding_failure_identity _ _ _ (Or.inl rfl)⟩

/-- C9: for every input text, the output of the Content Extractor's collapsing
step (`clean_text`) contains no line that is empty after trimming: every line
of the output is non-empty and equal to its own trimmed form, and the output
is exactly its lines rejoined with single newlines. -/
theorem claim_c9_clean_text_lines (text : Str) :
    clean_text text = join_lines '\n' (text_lines (clean_text text)) ∧
      ∀ l ∈ text_lines (clean_text text), l ≠ [] ∧ strip l = l := by
  have hct : clean_text text
      = join_lines '\n' (((split_on_char '\n' text).map strip).filter
          (fun l => decide (l ≠ []))) := rfl
  have hmem : ∀ l ∈ ((split_on_char '\n' text).map strip).filter
      (fun l => decide (l ≠ [])), l ≠ [] ∧ strip l = l ∧ '\n' ∉ l := by
    intro l hl
    rw [List.mem_filter] at hl
    obtain ⟨hmap, hne⟩ := hl
    rw [List.mem_map] at hmap
    obtain ⟨l₀, hl₀, hstrip⟩ := hmap
    have hne' : l ≠ [] := by simpa using hne
    refine ⟨hne', ?_, ?_⟩
    · rw [← hstrip, strip_idem]
    · intro hmem'
      exact mem_split_not_sep hl₀ (strip_mem (hstrip ▸ hmem'))
  by_cases hempty : clean_text text = []
  · constructor
    · rw [hempty, text_lines, if_pos rfl]
      rfl
    · intro l hl
      rw [hempty, text_lines, if_pos rfl] at hl
      simp at hl
  · have hLne : ((split_on_char '\n' text).map strip).filter
        (fun l => decide (l ≠ [])) ≠ [] := by
      intro h0
      apply hempty
      rw [hct, h0]
      rfl
    have hsplit : split_on_char '\n' (clean_text text)
        = ((split_on_char '\n' text).map strip).filter (fun l => decide (l ≠ [])) := by
      rw [hct]
      exact split_join _ (fun l hl => (hmem l hl).2.2) hLne
    have htl : text_lines (clean_text text)
        = ((split_on_char '\n' text).map strip).filter (fun l => decide (l ≠ [])) := by
      rw [text_lines, if_neg hempty, hsplit]
    constructor
    · rw [htl, ← hct]
    · intro l hl
      rw [htl] at hl
      exact ⟨(hmem l hl).1, (hmem l hl).2.1⟩

/-! ### Page Fetch Orchestrator: `fetch_webpage_content` (crawl.py lines 777-887) -/

/-- Does `s` start with `pat`? (helper for the substring test). -/
def str_startswith : Str → Str → Bool
  | [], _ => true
  | _ :: _, [] => false
  | p :: ps, c :: cs => p = c && str_startswith ps cs

/-- Python's `pat in s` substring containment test. -/
def str_in (pat : Str) : Str → Bool
  | [] => decide (pat = [])
  | c :: cs => str_startswith pat (c :: cs) || str_in pat cs

/-- The sentinel title `"无标题"` ("untitled"). -/
def sentinel : Str := "无标题".toList

/-- The domain pattern routed straight to Selenium. -/
def zhihu_pat : Str := "zhihu.com".toList

/-- Failure reason for the zhihu/Selenium-only path. -/
def zhihu_fail_reason : Str := "知乎内容爬取失败".toList

/-- Failure reason for a raised request: `f"请求失败: {str(e)}"`. -/
def req_fail_reason (e : Str) : Str := "请求失败: ".toList ++ e

/-- Failure reason for a disallowed content type:
`f"非文本内容 (Content-Type: {content_type})"`. -/
def ct_fail_reason (ct : Str) : Str :=
  "非文本内容 (Content-Type: ".toList ++ ct ++ ")".toList

/-- Failure reason for empty extracted content. -/
def empty_fail_reason : Str := "提取的内容为空".toList

/-- Crawl-method tag for the Selenium strategy. -/
def method_selenium : Str := "selenium".toList

/-- Crawl-method tag for the requests strategy. -/
def method_requests : Str := "requests".toList

/-- Everything the orchestrator reads from a successful direct HTTP response
(after `session.get`, `raise_for_status`, byte-level encoding detection and
BeautifulSoup parsing): the `Content-Type` header, `soup.title` (outer
`none` = no `<title>` tag, inner option = `soup.title.string`, which can be
`None`), and `soup.get_text(separator='\n')` of the decomposed document. -/
structure HttpResp where
  contentType : Str
  titleTag : Option (Option Str)
  rawText : Str

/-- The external world of `fetch_webpage_content`. `http` models the whole
`try` body up to text extraction: `.error e` is any exception raised there
(connection error, timeout, `raise_for_status` on a non-2xx answer after the
transport-level retries). `selenium` models `fetch_with_selenium`, which
catches all its own exceptions and returns text or `None`. `det`/`dec` are the
`fix_encoding` oracles, and `now` is `datetime.now().isoformat()`. -/
structure Oracles where
  http : Str → Except Str HttpResp
  selenium : Str → Option Str
  det : List Nat → Option Detected
  dec : Option Str → List Nat → Option Str
  now : Str

/-- `bookmark["url"]`. The bookmarks fed to the orchestrator always carry a
string url (`get_bookmarks` sets one on every record), so the fallback arm is
never reached for real inputs. -/
def bm_url (b : Dict) : Str :=
  match lookup b "url" with
  | some (.str u) => u
  | _ => []

/-- `bookmark.get("name", "无标题")`; real bookmark records always hold a
string name, so non-string values are not modelled. -/
def bm_name (b : Dict) : Str :=
  match lookup b "name" with
  | some (.str s) => s
  | _ => sentinel

/-- A failure record, crawl.py lines 798/821/845/875:
`{"url", "title", "reason", "timestamp"}`. -/
def fail_record (url title reason now : Str) : Dict :=
  [("url", .str url), ("title", .str title),
   ("reason", .str reason), ("timestamp", .str now)]

/-- Title resolution on a successful direct fetch (crawl.py lines 827-830):
`title = soup.title.string if soup.title.string else "无标题"` when
`soup.title` exists, else `"无标题"`; both a missing `.string` and an empty
one are falsy. -/
def resolve_title : Option (Option Str) → Str
  | some (some s) => if s = [] then sentinel else s
  | some none => sentinel
  | none => sentinel

/-- Content-type rejection (crawl.py line 818): neither `text/html` nor
`text/plain` occurs in the lower-cased `Content-Type` header. -/
def ct_disallowed (ct : Str) : Bool :=
  !(str_in "text/html".toList (ct.map Char.toLower)) &&
    !(str_in "text/plain".toList (ct.map Char.toLower))

/-- The fallback test at crawl.py line 849:
`content is None or (isinstance(content, str) and not content.strip())`. -/
def needs_fallback : Option Str → Bool
  | none => true
  | some c => decide (strip c = [])

/-- The successful-result record (crawl.py lines 879-884): a copy of the
bookmark with `title`, `content`, `content_length`, `crawl_time` and
`crawl_method` assigned. -/
def with_content_fields (b : Dict) (title content now method : Str) : Dict :=
  dset (dset (dset (dset (dset b "title" (.str title)) "content" (.str content))
    "content_length" (.nat content.length)) "crawl_time" (.str now))
    "crawl_method" (.str method)

/-- Title fix-up at crawl.py lines 861-864: `if title:` then
`fix_encoding(title)` else the sentinel. -/
def final_title (o : Oracles) (title : Str) : Str :=
  if title = [] then sentinel else fix_encoding o.det o.dec title

/-- Content fix-up at crawl.py lines 866-869: a truthy string goes through
`fix_encoding`, everything else becomes the empty string. -/
def final_content (o : Oracles) : Option Str → Str
  | some c => if c = [] then [] else fix_encoding o.det o.dec c
  | none => []

/-- Tail of the orchestrator (crawl.py lines 860-887): fix the encoding of
title and content, fail when the final content is empty (crawl.py line 872:
`if not content or not content.strip()`, rendered as `strip content = []`
since an empty string also has an empty strip), otherwise build the result
record. The extra `Bool` is ghost instrumentation recording whether Selenium
was ever invoked. -/
def finish_fetch (o : Oracles) (b : Dict) (url title : Str)
    (content : Option Str) (method : Str) (selUsed : Bool) :
    (Option Dict × Option Dict) × Bool :=
  if strip (final_content o content) = [] then
    ((none, some (fail_record url (final_title o title) empty_fail_reason o.now)),
      selUsed)
  else
    ((some (with_content_fields b (final_title o title) (final_content o content)
      o.now method), none), selUsed)

/-- Middle of the orchestrator (crawl.py lines 848-858): if the content so far
is `None` or whitespace-only, retry with Selenium (setting the crawl method to
`"selenium"`), then run the common tail. -/
def after_fetch (o : Oracles) (b : Dict) (url title : Str)
    (content : Option Str) (method : Str) (selUsed : Bool) :
    (Option Dict × Option Dict) × Bool :=
  if needs_fallback content then
    finish_fetch o b url title (o.selenium url) method_selenium true
  else
    finish_fetch o b url title content method selUsed

/-- Python `fetch_webpage_content` (crawl.py lines 777-887), instrumented: the
first component is the function's actual return value
`(bookmark_with_content | None, failed_info | None)`; the second component is
ghost state recording whether `fetch_with_selenium` was invoked. Progress
printing does not affect the result and is not modelled. -/
def fetch_webpage_content_instr (o : Oracles) (b : Dict) :
    (Option Dict × Option Dict) × Bool :=
  if str_in zhihu_pat (bm_url b) then
    match o.selenium (bm_url b) with
    | none =>
        ((none, some (fail_record (bm_url b) (bm_name b) zhihu_fail_reason o.now)),
          true)
    | some c =>
        if c = [] then
          ((none, some (fail_record (bm_url b) (bm_name b) zhihu_fail_reason o.now)),
            true)
        else
          after_fetch o b (bm_url b) (bm_name b) (some c) method_selenium true
  else
    match o.http (bm_url b) with
    | .error e =>
        ((none, some (fail_record (bm_url b) (bm_name b) (req_fail_reason e) o.now)),
          false)
    | .ok resp =>
        if ct_disallowed resp.contentType then
          ((none,
            some (fail_record (bm_url b) (bm_name b)
              (ct_fail_reason resp.contentType) o.now)), false)
        else
          after_fetch o b (bm_url b) (resolve_title resp.titleTag)
            (some (clean_text resp.rawText)) method_requests false

/-- Python `fetch_webpage_content`: the pair actually returned to callers. -/
def fetch_webpage_content (o : Oracles) (b : Dict) : Option Dict × Option Dict :=
  (fetch_webpage_content_instr o b).1

/-- Exactly one component of a `(result, failed_info)` pair is present. -/
def exactly_one (p : Option Dict × Option Dict) : Prop :=
  (p.1.isSome = true ∧ p.2 = none) ∨ (p.1 = none ∧ p.2.isSome = true)

theorem finish_exactly_one (o : Oracles) (b : Dict) (url title : Str)
    (content : Option Str) (method : Str) (selUsed : Bool) :
    exactly_one (finish_fetch o b url title content method selUsed).1 := by
  unfold finish_fetch
  split
  · right; exact ⟨rfl, rfl⟩
  · left; exact ⟨rfl, rfl⟩

theorem after_exactly_one (o : Oracles) (b : Dict) (url title : Str)
    (content : Option Str) (method : Str) (selUsed : Bool) :
    exactly_one (after_fetch o b url title content method selUsed).1 := by
  unfold after_fetch
  split
  · exact finish_exactly_one o b url title _ _ _
  · exact finish_exactly_one o b url title _ _ _

theorem fetch_exactly_one (o : Oracles) (b : Dict) :
    exactly_one (fetch_webpage_content o b) := by
  unfold fetch_webpage_content fetch_webpage_content_instr
  split
  · split
    · right; exact ⟨rfl, rfl⟩
    · split
      · right; exact ⟨rfl, rfl⟩
      · exact after_exactly_one o b _ _ _ _ _
  · split
    · right; exact ⟨rfl, rfl⟩
    · split
      · right; exact ⟨rfl, rfl⟩
      · exact after_exactly_one o b _ _ _ _ _

/-- C1: for every bookmark input, `fetch_webpage_content` returns exactly one
of a fetch-result record and a failure record and never both: the result
component is non-null if and only if the failure component is null, on every
return path. -/
theorem claim_c1_fetch_result_exclusive (o : Oracles) (b : Dict) :
    ((fetch_webpage_content o b).1.isSome = true
        ∧ (fetch_webpage_content o b).2 = none) ∨
      ((fetch_webpage_content o b).1 = none
        ∧ (fetch_webpage_content o b).2.isSome = true) :=
  fetch_exactly_one o b

theorem lookup_wcf_other (b : Dict) (t c n m : Str) (k : String)
    (h1 : k ≠ "title") (h2 : k ≠ "content") (h3 : k ≠ "content_length")
    (h4 : k ≠ "crawl_time") (h5 : k ≠ "crawl_method") :
    lookup (with_content_fields b t c n m) k = lookup b k := by
  unfold with_content_fields
  rw [lookup_dset_ne _ _ _ _ h5, lookup_dset_ne _ _ _ _ h4,
    lookup_dset_ne _ _ _ _ h3, lookup_dset_ne _ _ _ _ h2,
    lookup_dset_ne _ _ _ _ h1]

theorem lookup_wcf_title (b : Dict) (t c n m : Str) :
    lookup (with_content_fields b t c n m) "title" = some (.str t) := by
  unfold with_content_fields
  rw [lookup_dset_ne _ _ _ _ (by decide), lookup_dset_ne _ _ _ _ (by decide),
    lookup_dset_ne _ _ _ _ (by decide), lookup_dset_ne _ _ _ _ (by decide),
    lookup_dset_self]

theorem finish_success_form {o : Oracles} {b : Dict} {url title : Str}
    {content : Option Str} {method : Str} {selUsed : Bool} {res : Dict}
    (h : (finish_fetch o b url title content method selUsed).1.1 = some res) :
    res = with_content_fields b (final_title o title) (final_content o content)
      o.now method := by
  unfold finish_fetch at h
  split at h
  · exact absurd h (by simp)
  · simpa using h.symm

theorem after_success_form {o : Oracles} {b : Dict} {url title : Str}
    {content : Option Str} {method : Str} {selUsed : Bool} {res : Dict}
    (h : (after_fetch o b url title content method selUsed).1.1 = some res) :
    ∃ c m, res = with_content_fields b (final_title o title) c o.now m := by
  unfold after_fetch at h
  split at h
  · exact ⟨_, _, finish_success_form h⟩
  · exact ⟨_, _, finish_success_form h⟩

theorem fetch_success_form {o : Oracles} {b : Dict} {res : Dict}
    (h : (fetch_webpage_content o b).1 = some res) :
    ∃ t c m, res = with_content_fields b t c o.now m := by
  unfold fetch_webpage_content fetch_webpage_content_instr at h
  split at h
  · split at h
    · exact absurd h (by simp)
    · split at h
      · exact absurd h (by simp)
      · obtain ⟨c, m, hf⟩ := after_success_form h
        exact ⟨_, c, m, hf⟩
  · split at h
    · exact absurd h (by simp)
    · split at h
      · exact absurd h (by simp)
      · obtain ⟨c, m, hf⟩ := after_success_form h
        exact ⟨_, c, m, hf⟩

/-- C10: for every successful fetch, the returned record preserves every field
of the input bookmark unchanged: lookups at any key other than the five added
ones (`title`, `content`, `content_length`, `crawl_time`, `crawl_method`) —
in particular `url`, `name`, `guid`, `id`, `type`, `date_added`,
`date_last_used` — give the same answer on the result as on the input. -/
theorem claim_c10_fetch_frame (o : Oracles) (b : Dict) (res : Dict)
    (hres : (fetch_webpage_content o b).1 = some res) (k : String)
    (h1 : k ≠ "title") (h2 : k ≠ "content") (h3 : k ≠ "content_length")
    (h4 : k ≠ "crawl_time") (h5 : k ≠ "crawl_method") :
    lookup res k = lookup b k := by
  obtain ⟨t, c, m, hf⟩ := fetch_success_form hres
  rw [hf]
  exact lookup_wcf_other b t c o.now m k h1 h2 h3 h4 h5

/-- C2: for a non-whitelisted (non-zhihu) URL, an outright direct-fetch
failure (raised request, or disallowed content type) produces the
corresponding failure record immediately and Selenium is never invoked
(ghost flag `false`); conversely Selenium runs only when the direct fetch
succeeded with an allowed content type but empty/whitespace-only extracted
content. -/
theorem claim_c2_direct_failure_no_fallback (o : Oracles) (b : Dict) (u : Str)
    (hu : lookup b "url" = some (.str u))
    (hz : str_in zhihu_pat u = false) :
    (∀ e, o.http u = .error e →
        fetch_webpage_content_instr o b
          = ((none, some (fail_record u (bm_name b) (req_fail_reason e) o.now)),
            false)) ∧
      (∀ resp, o.http u = .ok resp → ct_disallowed resp.contentType = true →
        fetch_webpage_content_instr o b
          = ((none, some (fail_record u (bm_name b)
              (ct_fail_reason resp.contentType) o.now)), false)) ∧
      ((fetch_webpage_content_instr o b).2 = true →
        ∃ resp, o.http u = .ok resp ∧ ct_disallowed resp.contentType = false ∧
          strip (clean_text resp.rawText) = []) := by
  have hbu : bm_url b = u := by
    unfold bm_url
    rw [hu]
  refine ⟨?_, ?_, ?_⟩
  · intro e he
    unfold fetch_webpage_content_instr
    rw [hbu, hz, he]
    simp
  · intro resp hresp hct
    unfold fetch_webpage_content_instr
    rw [hbu, hz, hresp]
    simp only [Bool.false_eq_true, if_false]
    rw [hct]
    simp
  · intro hsel
    unfold fetch_webpage_content_instr at hsel
    rw [hbu, hz] at hsel
    simp only [Bool.false_eq_true, if_false] at hsel
    split at hsel
    · simp at hsel
    next resp heq =>
      split at hsel
      · simp at hsel
      next hct =>
        have hctf : ct_disallowed resp.contentType = false := by
          simpa using hct
        unfold after_fetch at hsel
        refine ⟨resp, heq, hctf, ?_⟩
        split at hsel
        next hnf =>
          unfold needs_fallback at hnf
          simpa using hnf
        next hnf =>
          unfold finish_fetch at hsel
          split at hsel <;> simp at hsel

/-- A concrete bookmark record with a url and a stored display name. -/
def bm_a : Dict :=
  [("url", .str "http://e.com/x".toList), ("name", .str "A".toList)]

/-- A world where every direct request raises. -/
def orc_err : Oracles :=
  { http := fun _ => .error "boom".toList
    selenium := fun _ => none
    det := fun _ => none
    dec := fun _ _ => none
    now := "t0".toList }

/-- A world where the direct request succeeds with a titled HTML page. -/
def orc_ok : Oracles :=
  { http := fun _ => .ok
      { contentType := "text/html".toList
        titleTag := some (some "T".toList)
        rawText := "hi there".toList }
    selenium := fun _ => none
    det := fun _ => none
    dec := fun _ _ => none
    now := "t1".toList }

/-- A world where the page has no title tag at all. -/
def orc_untitled : Oracles :=
  { http := fun _ => .ok
      { contentType := "text/html".toList
        titleTag := none
        rawText := "hi there".toList }
    selenium := fun _ => none
    det := fun _ => none
    dec := fun _ _ => none
    now := "t2".toList }

theorem claim_c2_direct_failure_no_fallback_witness :
    fetch_webpage_content_instr orc_err bm_a
      = ((none, some (fail_record "http://e.com/x".toList (bm_name bm_a)
          (req_fail_reason "boom".toList) orc_err.now)), false) :=
  (claim_c2_direct_failure_no_fallback orc_err bm_a "http://e.com/x".toList
    (by decide) (by decide)).1 "boom".toList rfl

/-- The record produced by the successful direct fetch in `orc_ok`. -/
def res_ok : Dict :=
  with_content_fields bm_a "T".toList "hi there".toList "t1".toList
    method_requests

theorem claim_c10_fetch_frame_witness :
    lookup res_ok "url" = lookup bm_a "url" :=
  claim_c10_fetch_frame orc_ok bm_a res_ok (by decide) "url"
    (by decide) (by decide) (by decide) (by decide) (by decide)

/-- C5 fails on the code: in the world `orc_untitled` the page has no
`<title>` tag but the bookmark `bm_a` carries the stored display name `"A"`;
the fetch succeeds, yet the resolved title is the sentinel `"无标题"` rather
than the stored name — contradicting "the sentinel title is used only when
both are absent". -/
theorem claim_c5_counterexample :
    bm_name bm_a = "A".toList ∧ "A".toList ≠ ([] : Str) ∧
      ((fetch_webpage_content orc_untitled bm_a).1.bind
        (fun d => lookup d "title")) = some (.str sentinel) ∧
      sentinel ≠ "A".toList := by
  refine ⟨by decide, by decide, ?_, by decide⟩
  decide

theorem resolve_title_ne_nil (tt : Option (Option Str)) :
    resolve_title tt ≠ [] := by
  cases tt with
  | none => decide
  | some t =>
      cases t with
      | none => decide
      | some s =>
          show (if s = [] then sentinel else s) ≠ []
          split
          · decide
          next h => exact h

theorem finish_success_title {o : Oracles} {b : Dict} {url title : Str}
    {content : Option Str} {method : Str} {selUsed : Bool} {res : Dict}
    (h : (finish_fetch o b url title content method selUsed).1.1 = some res) :
    lookup res "title" = some (.str (final_title o title)) := by
  rw [finish_success_form h]
  exact lookup_wcf_title ..

theorem after_success_title {o : Oracles} {b : Dict} {url title : Str}
    {content : Option Str} {method : Str} {selUsed : Bool} {res : Dict}
    (h : (after_fetch o b url title content method selUsed).1.1 = some res) :
    lookup res "title" = some (.str (final_title o title)) := by
  unfold after_fetch at h
  split at h
  · exact finish_success_title h
  · exact finish_success_title h

/-- C5 amended: on the Direct tier (non-zhihu URL, request succeeded, content
type allowed), the resolved title of a successful fetch is the Encoding
Normalizer applied to the page's own title resolution — the live `<title>`
string when present and non-empty, the sentinel otherwise — and the
bookmark's stored name is never consulted; on the whitelisted Rendered
(zhihu) tier, the resolved title is the bookmark's stored name run through
the Encoding Normalizer (the live page title is not extracted), with the
sentinel when that name is empty. -/
theorem claim_c5_amended_title_resolution (o : Oracles) (b : Dict) (u : Str)
    (hu : lookup b "url" = some (.str u)) :
    (∀ resp res, str_in zhihu_pat u = false → o.http u = .ok resp →
      ct_disallowed resp.contentType = false →
      (fetch_webpage_content o b).1 = some res →
      lookup res "title"
        = some (.str (fix_encoding o.det o.dec (resolve_title resp.titleTag)))) ∧
    (∀ res, str_in zhihu_pat u = true →
      (fetch_webpage_content o b).1 = some res →
      lookup res "title"
        = some (.str (if bm_name b = [] then sentinel
            else fix_encoding o.det o.dec (bm_name b)))) := by
  have hbu : bm_url b = u := by
    unfold bm_url
    rw [hu]
  constructor
  · intro resp res hz hh hct hres
    unfold fetch_webpage_content fetch_webpage_content_instr at hres
    rw [hbu, hz, hh] at hres
    simp only [Bool.false_eq_true, if_false] at hres
    rw [hct] at hres
    simp only [Bool.false_eq_true, if_false] at hres
    have := after_success_title hres
    rw [this]
    unfold final_title
    rw [if_neg (resolve_title_ne_nil resp.titleTag)]
  · intro res hz hres
    unfold fetch_webpage_content fetch_webpage_content_instr at hres
    rw [hbu, hz] at hres
    simp only [if_true] at hres
    split at hres
    · simp at hres
    · split at hres
      · simp at hres
      · have := after_success_title hres
        rw [this]
        unfold final_title
        rfl

theorem claim_c5_amended_title_resolution_witness :
    lookup res_ok "title"
      = some (.str (fix_encoding orc_ok.det orc_ok.dec
          (resolve_title (some (some "T".toList))))) :=
  (claim_c5_amended_title_resolution orc_ok bm_a "http://e.com/x".toList
    (by decide)).1
    { contentType := "text/html".toList
      titleTag := some (some "T".toList)
      rawText := "hi there".toList }
    res_ok (by decide) rfl (by decide) (by decide)

/-! ### Parallel Crawl Coordinator: `parallel_fetch_bookmarks`
(crawl.py lines 890-942) -/

/-- The fan-out/fan-in body of the coordinator: run `fetch_webpage_content`
on every entry, collect truthy results and truthy failure records in
submission order (`for future in futures: future.result()`; both records are
nonempty dicts whenever present). -/
def fetch_collect (o : Oracles) (l : List Dict) : List Dict × List Dict :=
  ((l.map (fun b => fetch_webpage_content o b)).filterMap (fun p => p.1),
    (l.map (fun b => fetch_webpage_content o b)).filterMap (fun p => p.2))

/-- Python `parallel_fetch_bookmarks(bookmarks, max_workers, limit)`.
`if limit:` is Python truthiness — `None` and `0` both mean "process all",
otherwise the input is sliced to its first `limit` entries. `max_workers`
only sets the thread-pool size and cannot affect the collected values, since
each task depends only on its own bookmark. -/
def parallel_fetch_bookmarks (o : Oracles) (bookmarks : List Dict)
    (_maxWorkers : Nat) : Option Nat → List Dict × List Dict
  | some l => fetch_collect o (if l = 0 then bookmarks else bookmarks.take l)
  | none => fetch_collect o bookmarks

theorem fetch_count_aux (o : Oracles) :
    ∀ l : List Dict,
      ((l.map (fun b => fetch_webpage_content o b)).filterMap
          (fun p => p.1)).length +
        ((l.map (fun b => fetch_webpage_content o b)).filterMap
          (fun p => p.2)).length = l.length := by
  intro l
  induction l with
  | nil => rfl
  | cons b rest ih =>
      rcases fetch_exactly_one o b with ⟨h1, h2⟩ | ⟨h1, h2⟩
      · obtain ⟨r, hr⟩ := Option.isSome_iff_exists.mp h1
        have e1 : ((b :: rest).map (fun b => fetch_webpage_content o b)).filterMap
            (fun p => p.1)
            = r :: (rest.map (fun b => fetch_webpage_content o b)).filterMap
              (fun p => p.1) := by
          rw [List.map_cons, List.filterMap_cons, hr]
        have e2 : ((b :: rest).map (fun b => fetch_webpage_content o b)).filterMap
            (fun p => p.2)
            = (rest.map (fun b => fetch_webpage_content o b)).filterMap
              (fun p => p.2) := by
          rw [List.map_cons, List.filterMap_cons, h2]
        rw [e1, e2, List.length_cons, List.length_cons]
        omega
      · obtain ⟨f, hf⟩ := Option.isSome_iff_exists.mp h2
        have e1 : ((b :: rest).map (fun b => fetch_webpage_content o b)).filterMap
            (fun p => p.1)
            = (rest.map (fun b => fetch_webpage_content o b)).filterMap
              (fun p => p.1) := by
          rw [List.map_cons, List.filterMap_cons, h1]
        have e2 : ((b :: rest).map (fun b => fetch_webpage_content o b)).filterMap
            (fun p => p.2)
            = f :: (rest.map (fun b => fetch_webpage_content o b)).filterMap
              (fun p => p.2) := by
          rw [List.map_cons, List.filterMap_cons, hf]
        rw [e1, e2, List.length_cons, List.length_cons]
        omega

theorem fetch_collect_count (o : Oracles) (l : List Dict) :
    (fetch_collect o l).1.length + (fetch_collect o l).2.length = l.length :=
  fetch_count_aux o l

/-- C8: with a limit `L` where `0 < L < N`, the coordinator processes exactly
the first `L` bookmarks in input order — its output equals running the
coordinator on the truncated prefix with no limit, and it produces exactly one
record (success or failure) per processed entry, `L` in total; with no limit
it produces exactly one record for each of the `N` entries. -/
theorem claim_c8_limit_prefix (o : Oracles) (maxWorkers : Nat)
    (bookmarks : List Dict) (L : Nat) (h0 : 0 < L)
    (hN : L < bookmarks.length) :
    parallel_fetch_bookmarks o bookmarks maxWorkers (some L)
        = parallel_fetch_bookmarks o (bookmarks.take L) maxWorkers none ∧
      (parallel_fetch_bookmarks o bookmarks maxWorkers (some L)).1.length +
        (parallel_fetch_bookmarks o bookmarks maxWorkers (some L)).2.length
        = L ∧
      (parallel_fetch_bookmarks o bookmarks maxWorkers none).1.length +
        (parallel_fetch_bookmarks o bookmarks maxWorkers none).2.length
        = bookmarks.length := by
  have hL : L ≠ 0 := Nat.pos_iff_ne_zero.mp h0
  have hsome : parallel_fetch_bookmarks o bookmarks maxWorkers (some L)
      = fetch_collect o (bookmarks.take L) := by
    show fetch_collect o (if L = 0 then bookmarks else bookmarks.take L)
        = fetch_collect o (bookmarks.take L)
    rw [if_neg hL]
  refine ⟨?_, ?_, ?_⟩
  · rw [hsome]
    rfl
  · rw [hsome]
    have := fetch_collect_count o (bookmarks.take L)
    rwa [List.length_take, Nat.min_eq_left (Nat.le_of_lt hN)] at this
  · exact fetch_collect_count o bookmarks

theorem claim_c8_limit_prefix_witness :
    parallel_fetch_bookmarks orc_ok [bm_a, bm_a] 20 (some 1)
        = parallel_fetch_bookmarks orc_ok ([bm_a, bm_a].take 1) 20 none ∧
      (parallel_fetch_bookmarks orc_ok [bm_a, bm_a] 20 (some 1)).1.length +
        (parallel_fetch_bookmarks orc_ok [bm_a, bm_a] 20 (some 1)).2.length
        = 1 ∧
      (parallel_fetch_bookmarks orc_ok [bm_a, bm_a] 20 none).1.length +
        (parallel_fetch_bookmarks orc_ok [bm_a, bm_a] 20 none).2.length
        = [bm_a, bm_a].length :=
  claim_c8_limit_prefix orc_ok 20 [bm_a, bm_a] 1 (by decide) (by decide)

/-! ### Summary generation and merge: `generate_summaries_for_bookmarks`
(crawl.py lines 494-578) -/

/-- The failure marker embedded in summaries by `generate_summary`'s
`except` handler (`f"摘要生成失败: {str(e)}"`), and tested by
`if "摘要生成失败" not in summary`. -/
def fail_marker : Str := "摘要生成失败".toList

/-- `bookmark["title"]` of a fetched record; fetch results always carry a
string title, so the fallback arm is never reached for real inputs. -/
def bm_title (b : Dict) : Str :=
  match lookup b "title" with
  | some (.str s) => s
  | _ => []

/-- `bookmark["content"]` of a fetched record; fetch results always carry a
string content, so the fallback arm is never reached for real inputs. -/
def bm_content (b : Dict) : Str :=
  match lookup b "content" with
  | some (.str s) => s
  | _ => []

/-- `item.get('url')` as used by the merge pass: `some u` only when the key
holds a string (a non-string or missing url never equals a string url under
Python `==`). -/
def url_of (d : Dict) : Option Str :=
  match lookup d "url" with
  | some (.str u) => some u
  | _ => none

/-- The url-keyed map `{item.get('url'): item for item in existing_data}`,
looked up at a string url: the last record with that url wins, as in a dict
comprehension. -/
def existing_find (ed : List Dict) (u : Str) : Option Dict :=
  ed.foldl (fun acc d => if url_of d = some u then some d else acc) none

/-- The skip test at crawl.py line 529:
`url in existing_map and "summary" in existing_map[url]`. -/
def already_summarized (ed : List Dict) (u : Str) : Bool :=
  match existing_find ed u with
  | some d => (lookup d "summary").isSome
  | none => false

/-- The in-place update loop at crawl.py lines 554-557: replace the first
record whose `url` equals `u` by `nd`; if none matches, the list is
unchanged (the loop simply finds nothing). -/
def replace_first (u : Str) (nd : Dict) : List Dict → List Dict
  | [] => []
  | d :: rest =>
      if url_of d = some u then nd :: rest else d :: replace_first u nd rest

/-- State threaded through the summary loop. `existingData` and
`successCount` are the function's own state; `generatedUrls` (ghost) records
each url passed to `generate_summary`, and `updated` (ghost) records the
per-item bookmark dicts after the loop's in-place mutations. -/
structure SummAcc where
  existingData : List Dict
  successCount : Nat
  generatedUrls : List Str
  updated : List Dict
deriving DecidableEq

/-- The record the loop body builds for a non-skipped item (crawl.py lines
538-545): the input bookmark with `summary`, `summary_model` and
`summary_time` assigned. -/
def summarized_record (gen : Str → Str → Str → Str) (modelName nowS : Str)
    (b : Dict) : Dict :=
  dset (dset (dset b "summary"
      (.str (gen (bm_title b) (bm_content b) (bm_url b))))
    "summary_model" (.str modelName)) "summary_time" (.str nowS)

/-- One iteration of the summary loop (crawl.py lines 524-575). `ed0` is the
initial saved data: `existing_map` is built once before the loop and never
updated, so both the skip test and the replace-or-append test consult `ed0`,
while the replacement itself walks the current `existingData`. On a failed
summary (marker present) the item is recorded in `updated` but neither the
saved data nor the success counter changes. Per-item file writes
(`json.dump` + `os.replace`) are not modelled. -/
def summ_step (gen : Str → Str → Str → Str) (modelName nowS : Str)
    (ed0 : List Dict) (acc : SummAcc) (b : Dict) : SummAcc :=
  if already_summarized ed0 (bm_url b) then
    { acc with successCount := acc.successCount + 1,
               updated := acc.updated ++ [b] }
  else if str_in fail_marker (gen (bm_title b) (bm_content b) (bm_url b)) then
    { acc with generatedUrls := acc.generatedUrls ++ [bm_url b],
               updated := acc.updated ++ [summarized_record gen modelName nowS b] }
  else
    { existingData :=
        if (existing_find ed0 (bm_url b)).isSome then
          replace_first (bm_url b) (summarized_record gen modelName nowS b)
            acc.existingData
        else acc.existingData ++ [summarized_record gen modelName nowS b]
      successCount := acc.successCount + 1
      generatedUrls := acc.generatedUrls ++ [bm_url b]
      updated := acc.updated ++ [summarized_record gen modelName nowS b] }

/-- Python `generate_summaries_for_bookmarks(bookmarks_with_content, config)`
(crawl.py lines 494-578). `existing` is the previously saved output (or `[]`
when the file is absent or unparseable); `gen` is `generate_summary`
(title, content, url ↦ summary string); the function returns the merged
`existing_data` — here together with the success counter and the ghost
fields of the loop state. -/
def generate_summaries_for_bookmarks (gen : Str → Str → Str → Str)
    (modelName nowS : Str) (existing : List Dict) (inputs : List Dict) :
    SummAcc :=
  inputs.foldl (summ_step gen modelName nowS existing)
    { existingData := existing, successCount := 0,
      generatedUrls := [], updated := [] }

theorem url_of_summarized_record (gen : Str → Str → Str → Str)
    (mn nowS : Str) (b : Dict) :
    url_of (summarized_record gen mn nowS b) = url_of b := by
  unfold url_of summarized_record
  rw [lookup_dset_ne _ _ _ _ (by decide), lookup_dset_ne _ _ _ _ (by decide),
    lookup_dset_ne _ _ _ _ (by decide)]

theorem bm_url_of_url_of {b : Dict} {v : Str} (h : url_of b = some v) :
    bm_url b = v := by
  unfold url_of at h
  unfold bm_url
  cases hb : lookup b "url" with
  | none => rw [hb] at h; simp at h
  | some w =>
      rw [hb] at h
      cases w with
      | str s =>
          simp only [Option.some.injEq] at h
          simpa using h
      | nat n => simp at h

theorem filter_replace_first {u ub : Str} (hne : ub ≠ u) (nd : Dict)
    (hnd : url_of nd ≠ some u) :
    ∀ ed : List Dict,
      (replace_first ub nd ed).filter (fun d => decide (url_of d = some u))
        = ed.filter (fun d => decide (url_of d = some u)) := by
  intro ed
  induction ed with
  | nil => rfl
  | cons d rest ih =>
      unfold replace_first
      by_cases hd : url_of d = some ub
      · rw [if_pos hd]
        have h1 : decide (url_of nd = some u) = false := by
          simpa using hnd
        have h2 : decide (url_of d = some u) = false := by
          rw [hd]
          simpa using fun he => hne (Option.some.injEq .. ▸ he)
        rw [List.filter_cons, List.filter_cons, h1, h2]
        simp
      · rw [if_neg hd, List.filter_cons, List.filter_cons, ih]

theorem summ_fold_c3 (gen : Str → Str → Str → Str) (mn nowS : Str)
    (ed0 : List Dict) (u : Str)
    (hsum : already_summarized ed0 u = true) :
    ∀ (l : List Dict) (acc : SummAcc),
      ((l.foldl (summ_step gen mn nowS ed0) acc).existingData.filter
          (fun d => decide (url_of d = some u))
        = acc.existingData.filter (fun d => decide (url_of d = some u))) ∧
      (u ∉ acc.generatedUrls →
        u ∉ (l.foldl (summ_step gen mn nowS ed0) acc).generatedUrls) := by
  intro l
  induction l with
  | nil => exact fun acc => ⟨rfl, fun h => h⟩
  | cons b rest ih =>
      intro acc
      rw [List.foldl_cons]
      by_cases hskip : already_summarized ed0 (bm_url b) = true
      · have hstep : summ_step gen mn nowS ed0 acc b
            = { acc with successCount := acc.successCount + 1,
                         updated := acc.updated ++ [b] } := by
          unfold summ_step
          rw [if_pos hskip]
        rw [hstep]
        exact ⟨(ih _).1, fun h => (ih _).2 h⟩
      · have hub : bm_url b ≠ u := by
          intro he
          rw [he] at hskip
          exact hskip hsum
      -- the non-skipped item cannot have url `u`
        have hgen : ∀ a : SummAcc, u ∉ a.generatedUrls →
            u ∉ a.generatedUrls ++ [bm_url b] := by
          intro a ha hmem
          rcases List.mem_append.mp hmem with h1 | h1
          · exact ha h1
          · rw [List.mem_singleton] at h1
            exact hub h1.symm
        have hnd : url_of (summarized_record gen mn nowS b) ≠ some u := by
          rw [url_of_summarized_record]
          intro he
          exact hub (bm_url_of_url_of he)
        by_cases hfail :
            str_in fail_marker (gen (bm_title b) (bm_content b) (bm_url b)) = true
        · have hstep : summ_step gen mn nowS ed0 acc b
              = { acc with
                  generatedUrls := acc.generatedUrls ++ [bm_url b],
                  updated := acc.updated
                    ++ [summarized_record gen mn nowS b] } := by
            unfold summ_step
            rw [if_neg hskip, if_pos hfail]
          rw [hstep]
          exact ⟨(ih _).1, fun ha => (ih _).2 (hgen acc ha)⟩
        · have hstep : summ_step gen mn nowS ed0 acc b
              = { existingData :=
                    if (existing_find ed0 (bm_url b)).isSome then
                      replace_first (bm_url b) (summarized_record gen mn nowS b)
                        acc.existingData
                    else acc.existingData ++ [summarized_record gen mn nowS b]
                  successCount := acc.successCount + 1
                  generatedUrls := acc.generatedUrls ++ [bm_url b]
                  updated := acc.updated
                    ++ [summarized_record gen mn nowS b] } := by
            unfold summ_step
            rw [if_neg hskip, if_neg hfail]
          rw [hstep]
          constructor
          · rw [(ih _).1]
            by_cases hfind : (existing_find ed0 (bm_url b)).isSome
            · rw [if_pos hfind]
              exact filter_replace_first hub _ hnd acc.existingData
            · rw [if_neg hfind, List.filter_append]
              have : ([summarized_record gen mn nowS b]).filter
                  (fun d => decide (url_of d = some u)) = [] := by
                rw [List.filter_cons]
                have : decide (url_of (summarized_record gen mn nowS b) = some u)
                    = false := by simpa using hnd
                rw [this]
                rfl
              rw [this, List.append_nil]
          · exact fun ha => (ih _).2 (hgen acc ha)

/-- C3: for any url present both in a new batch and in the prior saved output
with an existing `summary` field, the summarization merge skips regenerating
(`generate_summary` is never invoked for that url) and preserves every prior
record with that url — in particular its summary — unchanged in the merged
output. -/
theorem claim_c3_merge_preserves_prior_summary (gen : Str → Str → Str → Str)
    (mn nowS : Str) (existing inputs : List Dict) (u : Str)
    (_hmem : u ∈ inputs.map bm_url)
    (hsum : already_summarized existing u = true) :
    u ∉ (generate_summaries_for_bookmarks gen mn nowS existing
        inputs).generatedUrls ∧
      (generate_summaries_for_bookmarks gen mn nowS existing
          inputs).existingData.filter (fun d => decide (url_of d = some u))
        = existing.filter (fun d => decide (url_of d = some u)) := by
  have h := summ_fold_c3 gen mn nowS existing u hsum inputs
    { existingData := existing, successCount := 0,
      generatedUrls := [], updated := [] }
  exact ⟨h.2 (by simp), h.1⟩

theorem claim_c3_merge_preserves_prior_summary_witness :
    "u1".toList ∈ ([[("url", Val.str "u1".toList),
        ("title", Val.str "t1".toList),
        ("content", Val.str "c1".toList)]] : List Dict).map bm_url ∧
      already_summarized
        [[("url", Val.str "u1".toList), ("summary", Val.str "s1".toList)]]
        "u1".toList = true ∧
      "u1".toList ∉ (generate_summaries_for_bookmarks
          (fun _ _ _ => "sum".toList) "m".toList "n".toList
          [[("url", Val.str "u1".toList), ("summary", Val.str "s1".toList)]]
          [[("url", Val.str "u1".toList), ("title", Val.str "t1".toList),
            ("content", Val.str "c1".toList)]]).generatedUrls ∧
      (generate_summaries_for_bookmarks (fun _ _ _ => "sum".toList)
          "m".toList "n".toList
          [[("url", Val.str "u1".toList), ("summary", Val.str "s1".toList)]]
          [[("url", Val.str "u1".toList), ("title", Val.str "t1".toList),
            ("content", Val.str "c1".toList)]]).existingData.filter
          (fun d => decide (url_of d = some "u1".toList))
        = ([[("url", Val.str "u1".toList),
            ("summary", Val.str "s1".toList)]] : List Dict).filter
          (fun d => decide (url_of d = some "u1".toList)) := by
  refine ⟨by decide, by decide, ?_, ?_⟩
  · exact (claim_c3_merge_preserves_prior_summary _ _ _ _ _ _
      (by decide) (by decide)).1
  · exact (claim_c3_merge_preserves_prior_summary _ _ _ _ _ _
      (by decide) (by decide)).2

/-- The in-place mutated record an input item carries after its loop
iteration: unchanged when skipped, otherwise the summarized record. -/
def item_record (gen : Str → Str → Str → Str) (mn nowS : Str)
    (ed0 : List Dict) (b : Dict) : Dict :=
  if already_summarized ed0 (bm_url b) then b
  else summarized_record gen mn nowS b

theorem summ_step_updated (gen : Str → Str → Str → Str) (mn nowS : Str)
    (ed0 : List Dict) (acc : SummAcc) (b : Dict) :
    (summ_step gen mn nowS ed0 acc b).updated
      = acc.updated ++ [item_record gen mn nowS ed0 b] := by
  unfold summ_step item_record
  by_cases hskip : already_summarized ed0 (bm_url b) = true
  · rw [if_pos hskip, if_pos hskip]
  · rw [if_neg hskip, if_neg hskip]
    by_cases hfail :
        str_in fail_marker (gen (bm_title b) (bm_content b) (bm_url b)) = true
    · rw [if_pos hfail]
    · rw [if_neg hfail]

theorem summ_fold_updated (gen : Str → Str → Str → Str) (mn nowS : Str)
    (ed0 : List Dict) :
    ∀ (l : List Dict) (acc : SummAcc),
      (l.foldl (summ_step gen mn nowS ed0) acc).updated
        = acc.updated ++ l.map (item_record gen mn nowS ed0) := by
  intro l
  induction l with
  | nil => intro acc; simp
  | cons b rest ih =>
      intro acc
      rw [List.foldl_cons, ih, summ_step_updated, List.map_cons,
        List.append_assoc, List.singleton_append]

theorem summ_step_state_congr (gen : Str → Str → Str → Str) (mn nowS : Str)
    (ed0 : List Dict) (a₁ a₂ : SummAcc) (b : Dict)
    (hed : a₁.existingData = a₂.existingData)
    (hsc : a₁.successCount = a₂.successCount) :
    (summ_step gen mn nowS ed0 a₁ b).existingData
        = (summ_step gen mn nowS ed0 a₂ b).existingData ∧
      (summ_step gen mn nowS ed0 a₁ b).successCount
        = (summ_step gen mn nowS ed0 a₂ b).successCount := by
  unfold summ_step
  by_cases hskip : already_summarized ed0 (bm_url b) = true
  · rw [if_pos hskip, if_pos hskip]
    exact ⟨hed, by rw [hsc]⟩
  · rw [if_neg hskip, if_neg hskip]
    by_cases hfail :
        str_in fail_marker (gen (bm_title b) (bm_content b) (bm_url b)) = true
    · rw [if_pos hfail, if_pos hfail]
      exact ⟨hed, hsc⟩
    · rw [if_neg hfail, if_neg hfail]
      refine ⟨?_, by rw [hsc]⟩
      by_cases hfind : (existing_find ed0 (bm_url b)).isSome
      · rw [if_pos hfind, if_pos hfind, hed]
      · rw [if_neg hfind, if_neg hfind, hed]

theorem summ_fold_state_congr (gen : Str → Str → Str → Str) (mn nowS : Str)
    (ed0 : List Dict) :
    ∀ (l : List Dict) (a₁ a₂ : SummAcc),
      a₁.existingData = a₂.existingData → a₁.successCount = a₂.successCount →
      (l.foldl (summ_step gen mn nowS ed0) a₁).existingData
          = (l.foldl (summ_step gen mn nowS ed0) a₂).existingData ∧
        (l.foldl (summ_step gen mn nowS ed0) a₁).successCount
          = (l.foldl (summ_step gen mn nowS ed0) a₂).successCount := by
  intro l
  induction l with
  | nil => exact fun a₁ a₂ hed hsc => ⟨hed, hsc⟩
  | cons b rest ih =>
      intro a₁ a₂ hed hsc
      rw [List.foldl_cons, List.foldl_cons]
      obtain ⟨hed', hsc'⟩ := summ_step_state_congr gen mn nowS ed0 a₁ a₂ b hed hsc
      exact ih _ _ hed' hsc'

theorem lookup_summarized_record (gen : Str → Str → Str → Str)
    (mn nowS : Str) (b : Dict) :
    lookup (summarized_record gen mn nowS b) "summary"
      = some (.str (gen (bm_title b) (bm_content b) (bm_url b))) := by
  unfold summarized_record
  rw [lookup_dset_ne _ _ _ _ (by decide), lookup_dset_ne _ _ _ _ (by decide),
    lookup_dset_self]

/-- C4: when summarization of an item fails (the generated summary carries the
failure marker), the failure message is stored as that item's `summary` value
on its record, the batch continues with the remaining items (every input gets
processed), and both the merged saved data and the batch success counter are
exactly what they would be had the failed item not been in the batch. -/
theorem claim_c4_summary_failure_isolated (gen : Str → Str → Str → Str)
    (mn nowS : Str) (existing pre post : List Dict) (b : Dict)
    (hskip : already_summarized existing (bm_url b) = false)
    (hfail : str_in fail_marker
      (gen (bm_title b) (bm_content b) (bm_url b)) = true) :
    (((generate_summaries_for_bookmarks gen mn nowS existing
          (pre ++ b :: post)).updated.get? pre.length).bind
        (fun d => lookup d "summary")
      = some (.str (gen (bm_title b) (bm_content b) (bm_url b)))) ∧
    (generate_summaries_for_bookmarks gen mn nowS existing
        (pre ++ b :: post)).updated.length = pre.length + 1 + post.length ∧
    (generate_summaries_for_bookmarks gen mn nowS existing
        (pre ++ b :: post)).existingData
      = (generate_summaries_for_bookmarks gen mn nowS existing
        (pre ++ post)).existingData ∧
    (generate_summaries_for_bookmarks gen mn nowS existing
        (pre ++ b :: post)).successCount
      = (generate_summaries_for_bookmarks gen mn nowS existing
        (pre ++ post)).successCount := by
  have hskip' : ¬ already_summarized existing (bm_url b) = true := by
    rw [hskip]
    simp
  have hitem : item_record gen mn nowS existing b
      = summarized_record gen mn nowS b := by
    unfold item_record
    rw [if_neg hskip']
  refine ⟨?_, ?_, ?_⟩
  · rw [generate_summaries_for_bookmarks, summ_fold_updated, List.nil_append,
      List.map_append, List.map_cons]
    rw [List.get?_append_right (by simp)]
    simp only [List.length_map, Nat.sub_self, List.get?_cons_zero]
    rw [hitem]
    simp only [Option.bind_some, Option.some_bind]
    exact lookup_summarized_record gen mn nowS b
  · rw [generate_summaries_for_bookmarks, summ_fold_updated, List.nil_append]
    simp only [List.length_map, List.length_append, List.length_cons]
    omega
  · have hall : generate_summaries_for_bookmarks gen mn nowS existing
        (pre ++ b :: post)
        = post.foldl (summ_step gen mn nowS existing)
            (summ_step gen mn nowS existing
              (pre.foldl (summ_step gen mn nowS existing)
                { existingData := existing, successCount := 0,
                  generatedUrls := [], updated := [] }) b) := by
      rw [generate_summaries_for_bookmarks, List.foldl_append, List.foldl_cons]
    have hrest : generate_summaries_for_bookmarks gen mn nowS existing
        (pre ++ post)
        = post.foldl (summ_step gen mn nowS existing)
            (pre.foldl (summ_step gen mn nowS existing)
              { existingData := existing, successCount := 0,
                generatedUrls := [], updated := [] }) := by
      rw [generate_summaries_for_bookmarks, List.foldl_append]
    set A := pre.foldl (summ_step gen mn nowS existing)
      { existingData := existing, successCount := 0,
        generatedUrls := [], updated := [] } with hA
    have hstep : (summ_step gen mn nowS existing A b).existingData
          = A.existingData ∧
        (summ_step gen mn nowS existing A b).successCount = A.successCount := by
      unfold summ_step
      rw [if_neg hskip', if_pos hfail]
      exact ⟨rfl, rfl⟩
    rw [hall, hrest]
    exact summ_fold_state_congr gen mn nowS existing post _ _ hstep.1 hstep.2

theorem claim_c4_summary_failure_isolated_witness :
    already_summarized []
        (bm_url [("url", Val.str "u2".toList),
          ("title", Val.str "t2".toList),
          ("content", Val.str "c2".toList)]) = false ∧
      str_in fail_marker
        ((fun _ _ _ => "摘要生成失败: x".toList)
          (bm_title [("url", Val.str "u2".toList),
            ("title", Val.str "t2".toList), ("content", Val.str "c2".toList)])
          (bm_content [("url", Val.str "u2".toList),
            ("title", Val.str "t2".toList), ("content", Val.str "c2".toList)])
          (bm_url [("url", Val.str "u2".toList),
            ("title", Val.str "t2".toList), ("content", Val.str "c2".toList)]))
        = true ∧
      ((generate_summaries_for_bookmarks (fun _ _ _ => "摘要生成失败: x".toList)
            "m".toList "n".toList []
            ([] ++ [("url", Val.str "u2".toList),
              ("title", Val.str "t2".toList),
              ("content", Val.str "c2".toList)] :: [])).updated.get?
          (List.length ([] : List Dict))).bind (fun d => lookup d "summary")
        = some (.str "摘要生成失败: x".toList) := by
  refine ⟨by decide, by decide, ?_⟩
  exact (claim_c4_summary_failure_isolated (fun _ _ _ => "摘要生成失败: x".toList)
    "m".toList "n".toList [] [] [] _ (by decide) (by decide)).1

end Crawl
